import Mathlib

/-!
Verification of the compatibility-matching engine of the match-backend
repository: the vectorizer (`traitsToVector`), the similarity engine
(`cosineSimilarity`), the match ranker (`findCompatibleUsers`) and the
reciprocity resolver (`checkMutualLike` / `createMatchIfMutualLike`,
together with the unlike route handler).

JavaScript objects keyed by strings are embedded as association lists
(`List (String × ℝ)`); floating-point numbers are idealized as real
numbers; the database (Prisma) tables are embedded as lists of rows, and
each stateful operation is a function from the database state to a result
paired with the new state.
-/

/-- A JavaScript object mapping string feature keys to numeric weights
(the `VectorMap` interface of the source). -/
abbrev VectorMap : Type := List (String × ℝ)

/-- JavaScript read `vector[key] || 0`: read a key, defaulting a missing key to `0`
(a stored `0` is falsy in JavaScript and also yields `0`, so `getD 0`
models `|| 0` exactly over the reals). -/
noncomputable def vget (v : VectorMap) (k : String) : ℝ :=
  (v.lookup k).getD 0

/-- JavaScript assignment `vector[key] = value`: JavaScript object assignment — overwrite the
entry when the key is present, append it otherwise. -/
noncomputable def vset (v : VectorMap) (k : String) (x : ℝ) : VectorMap :=
  if (v.lookup k).isSome then
    v.map (fun p => if p.1 = k then (k, x) else p)
  else
    v ++ [(k, x)]

/-- The key set `Object.keys(vector)` as a finite set (the union/iteration in
`cosineSimilarity` only consumes keys through a `Set`). -/
def vkeys (v : VectorMap) : Finset String :=
  (v.map Prod.fst).toFinset

/-- The squared-norm accumulator of `cosineSimilarity`:
`norm += value * value` over the given key set. -/
noncomputable def sumSq (keys : Finset String) (v : VectorMap) : ℝ :=
  ∑ k ∈ keys, vget v k * vget v k

/-- The dot-product accumulator of `cosineSimilarity`:
`dotProduct += valueA * valueB` over the given key set. -/
noncomputable def sumDot (keys : Finset String) (a b : VectorMap) : ℝ :=
  ∑ k ∈ keys, vget a k * vget b k

/-- Function `cosineSimilarity(vectorA, vectorB)` from `src/utils/vector.ts`:
iterate over the union of both key sets, accumulate the dot product and
both squared norms, return `0` when either norm is zero, otherwise
`dot / (sqrt normA * sqrt normB)`. -/
noncomputable def cosineSimilarity (vectorA vectorB : VectorMap) : ℝ :=
  if sumSq (vkeys vectorA ∪ vkeys vectorB) vectorA = 0 ∨
      sumSq (vkeys vectorA ∪ vkeys vectorB) vectorB = 0 then 0
  else
    sumDot (vkeys vectorA ∪ vkeys vectorB) vectorA vectorB /
      (Real.sqrt (sumSq (vkeys vectorA ∪ vkeys vectorB) vectorA) *
        Real.sqrt (sumSq (vkeys vectorA ∪ vkeys vectorB) vectorB))

/-- The `UserTraits` interface: a personality-trait object (string key to
numeric intensity), a list of interest keywords and a list of value
keywords. -/
structure UserTraits where
  personalityTraits : List (String × ℝ)
  interests : List String
  values : List String

/-- One `forEach` loop of `traitsToVector`: assign `vector[f x] = g x`
for each element `x` of the list, left to right. -/
noncomputable def vfold {α : Type} (f : α → String) (g : α → ℝ)
    (l : List α) (v : VectorMap) : VectorMap :=
  l.foldl (fun w x => vset w (f x) (g x)) v

/-- Function `traitsToVector(traits)` from `src/utils/vector.ts`: starting from the
empty object, assign `vector["personality_" + trait] = value` for each
personality trait, then `vector["interest_" + interest] = 1.0` for each
interest, then `vector["value_" + value] = 1.0` for each value. -/
noncomputable def traitsToVector (traits : UserTraits) : VectorMap :=
  vfold (fun s => "value_" ++ s) (fun _ => 1) traits.values
    (vfold (fun i => "interest_" ++ i) (fun _ => 1) traits.interests
      (vfold (fun p => "personality_" ++ p.1) (fun p => p.2)
        traits.personalityTraits []))

/-- Function `calculateUserSimilarity(userATraits, userBTraits)`: vectorize both
trait profiles and take their cosine similarity. -/
noncomputable def calculateUserSimilarity (a b : UserTraits) : ℝ :=
  cosineSimilarity (traitsToVector a) (traitsToVector b)

/-! ### Basic lemmas about the vector-map embedding -/

lemma lookup_map_replace (v : List (String × ℝ)) (k : String) (x : ℝ)
    (k' : String) :
    (v.map (fun p => if p.1 = k then (k, x) else p)).lookup k'
      = (v.lookup k').map (fun y => if k' = k then x else y) := by
  induction v with
  | nil => simp
  | cons p v ih =>
    obtain ⟨a, b⟩ := p
    by_cases h : a = k
    · subst h
      by_cases h2 : k' = a
      · subst h2
        simp [List.lookup_cons]
      · have hb : (k' == a) = false := beq_eq_false_iff_ne.mpr h2
        simp [List.lookup_cons, hb, ih, h2]
    · by_cases h2 : k' = a
      · subst h2
        have hkk : ¬k' = k := fun hc => h hc
        simp [List.lookup_cons, h, hkk]
      · have hb : (k' == a) = false := beq_eq_false_iff_ne.mpr h2
        simp [List.lookup_cons, h, hb, ih]

lemma lookup_vset (v : VectorMap) (k : String) (x : ℝ) (k' : String) :
    (vset v k x).lookup k' = if k' = k then some x else v.lookup k' := by
  unfold vset
  split
  · rename_i hs
    rw [lookup_map_replace]
    by_cases h2 : k' = k
    · subst h2
      rcases Option.isSome_iff_exists.1 hs with ⟨y, hy⟩
      simp [hy]
    · simp [h2]
  · rename_i hs
    rw [List.lookup_append]
    by_cases h2 : k' = k
    · subst h2
      have hn : v.lookup k' = none := Option.not_isSome_iff_eq_none.1 hs
      simp [hn, List.lookup_cons]
    · have hb : (k' == k) = false := beq_eq_false_iff_ne.mpr h2
      simp [List.lookup_cons, hb, h2]

/-- The fundamental read-over-write law for JavaScript object assignment. -/
lemma vget_vset (v : VectorMap) (k : String) (x : ℝ) (k' : String) :
    vget (vset v k x) k' = if k' = k then x else vget v k' := by
  unfold vget
  rw [lookup_vset]
  by_cases h : k' = k <;> simp [h]

/-- Writing a key adds exactly that key to the key set. -/
lemma vkeys_vset (v : VectorMap) (k : String) (x : ℝ) :
    vkeys (vset v k x) = vkeys v ∪ {k} := by
  unfold vset
  split
  · rename_i hs
    have hk : k ∈ vkeys v := by
      rcases List.lookup_isSome_iff.1 hs with ⟨p, hp, he⟩
      unfold vkeys
      simp only [List.mem_toFinset, List.mem_map]
      exact ⟨p, hp, (beq_iff_eq.1 he).symm⟩
    have hmap : (v.map (fun p => if p.1 = k then (k, x) else p)).map Prod.fst
        = v.map Prod.fst := by
      rw [List.map_map]
      apply List.map_congr_left
      intro p _
      by_cases h : p.1 = k <;> simp [h]
    unfold vkeys
    rw [hmap]
    rw [Finset.union_eq_left.2
      (by simpa [vkeys] using Finset.singleton_subset_iff.2 hk)]
  · unfold vkeys
    ext a
    simp [or_comm]

/-- A key absent from a vector reads as `0`. -/
lemma vget_not_mem (v : VectorMap) (k : String) (hk : k ∉ vkeys v) :
    vget v k = 0 := by
  unfold vget
  have hn : v.lookup k = none := by
    rw [List.lookup_eq_none_iff]
    intro p hp
    simp only [bne_iff_ne, ne_eq, beq_iff_eq]
    intro he
    apply hk
    unfold vkeys
    simp only [List.mem_toFinset, List.mem_map]
    exact ⟨p, hp, he.symm⟩
  simp [hn]

lemma sumSq_nonneg (keys : Finset String) (v : VectorMap) : 0 ≤ sumSq keys v :=
  Finset.sum_nonneg fun _ _ => mul_self_nonneg _

/-- Cosine similarity is symmetric (helper form). -/
lemma cosineSimilarity_comm (a b : VectorMap) :
    cosineSimilarity a b = cosineSimilarity b a := by
  unfold cosineSimilarity
  rw [Finset.union_comm (vkeys b) (vkeys a)]
  have hdot : sumDot (vkeys a ∪ vkeys b) b a = sumDot (vkeys a ∪ vkeys b) a b := by
    unfold sumDot
    exact Finset.sum_congr rfl fun k _ => mul_comm _ _
  rw [hdot]
  by_cases h1 : sumSq (vkeys a ∪ vkeys b) a = 0 <;>
    by_cases h2 : sumSq (vkeys a ∪ vkeys b) b = 0 <;>
    simp [h1, h2, mul_comm]

/-- Replacing the first argument by a pointwise-equal vector with a
possibly larger key set does not change the similarity. -/
lemma cosineSimilarity_congr_left (a a' b : VectorMap)
    (hget : ∀ k, vget a' k = vget a k) (hsub : vkeys a ⊆ vkeys a') :
    cosineSimilarity a' b = cosineSimilarity a b := by
  have hSS : vkeys a ∪ vkeys b ⊆ vkeys a' ∪ vkeys b :=
    Finset.union_subset_union_left hsub
  have hz : ∀ x ∈ vkeys a' ∪ vkeys b, x ∉ vkeys a ∪ vkeys b →
      vget a x = 0 ∧ vget b x = 0 := by
    intro x _ hnx
    rw [Finset.mem_union] at hnx
    push_neg at hnx
    exact ⟨vget_not_mem a x hnx.1, vget_not_mem b x hnx.2⟩
  have hsqa : sumSq (vkeys a' ∪ vkeys b) a' = sumSq (vkeys a ∪ vkeys b) a := by
    unfold sumSq
    rw [← Finset.sum_subset hSS (fun x hx hnx => by
      rw [hget x, (hz x hx hnx).1, mul_zero])]
    exact Finset.sum_congr rfl fun k _ => by rw [hget k]
  have hsqb : sumSq (vkeys a' ∪ vkeys b) b = sumSq (vkeys a ∪ vkeys b) b := by
    unfold sumSq
    rw [← Finset.sum_subset hSS (fun x hx hnx => by
      rw [(hz x hx hnx).2, mul_zero])]
  have hdot : sumDot (vkeys a' ∪ vkeys b) a' b = sumDot (vkeys a ∪ vkeys b) a b := by
    unfold sumDot
    rw [← Finset.sum_subset hSS (fun x hx hnx => by
      rw [hget x, (hz x hx hnx).1, zero_mul])]
    exact Finset.sum_congr rfl fun k _ => by rw [hget k]
  unfold cosineSimilarity
  rw [hsqa, hsqb, hdot]

/-- C9: for all vector pairs `(A, B)`,
`similarity(A, B) == similarity(B, A)`. -/
theorem similarity_symm (a b : VectorMap) :
    cosineSimilarity a b = cosineSimilarity b a :=
  cosineSimilarity_comm a b

/-- C7: for all vector pairs whose weights are all non-negative,
`0 ≤ similarity(A, B) ≤ 1` (exactly, in the real-number idealization of
the floating-point arithmetic). -/
theorem similarity_bounded_of_nonneg (a b : VectorMap)
    (ha : ∀ k, 0 ≤ vget a k) (hb : ∀ k, 0 ≤ vget b k) :
    0 ≤ cosineSimilarity a b ∧ cosineSimilarity a b ≤ 1 := by
  unfold cosineSimilarity
  by_cases h : sumSq (vkeys a ∪ vkeys b) a = 0 ∨ sumSq (vkeys a ∪ vkeys b) b = 0
  · rw [if_pos h]
    norm_num
  · rw [if_neg h]
    push_neg at h
    obtain ⟨h1, h2⟩ := h
    have hApos : 0 < sumSq (vkeys a ∪ vkeys b) a :=
      lt_of_le_of_ne (sumSq_nonneg _ _) (Ne.symm h1)
    have hBpos : 0 < sumSq (vkeys a ∪ vkeys b) b :=
      lt_of_le_of_ne (sumSq_nonneg _ _) (Ne.symm h2)
    have hden : 0 < Real.sqrt (sumSq (vkeys a ∪ vkeys b) a) *
        Real.sqrt (sumSq (vkeys a ∪ vkeys b) b) :=
      mul_pos (Real.sqrt_pos.2 hApos) (Real.sqrt_pos.2 hBpos)
    constructor
    · apply div_nonneg _ hden.le
      exact Finset.sum_nonneg fun k _ => mul_nonneg (ha k) (hb k)
    · rw [div_le_one hden]
      have hcs := Real.sum_mul_le_sqrt_mul_sqrt (vkeys a ∪ vkeys b)
        (fun k => vget a k) (fun k => vget b k)
      have hea : ∑ k ∈ vkeys a ∪ vkeys b, vget a k ^ 2 =
          sumSq (vkeys a ∪ vkeys b) a := by
        unfold sumSq
        exact Finset.sum_congr rfl fun k _ => pow_two _
      have heb : ∑ k ∈ vkeys a ∪ vkeys b, vget b k ^ 2 =
          sumSq (vkeys a ∪ vkeys b) b := by
        unfold sumSq
        exact Finset.sum_congr rfl fun k _ => pow_two _
      unfold sumDot
      rw [← hea, ← heb]
      exact hcs

/-! ### Lemmas about the vectorizer folds and feature-key namespacing -/

lemma vfold_cons {α : Type} (f : α → String) (g : α → ℝ) (x : α)
    (l : List α) (v : VectorMap) :
    vfold f g (x :: l) v = vfold f g l (vset v (f x) (g x)) := rfl

lemma vfold_append_single {α : Type} (f : α → String) (g : α → ℝ)
    (l : List α) (x : α) (v : VectorMap) :
    vfold f g (l ++ [x]) v = vset (vfold f g l v) (f x) (g x) := by
  unfold vfold
  rw [List.foldl_append]
  rfl

lemma vkeys_vfold {α : Type} (f : α → String) (g : α → ℝ) (l : List α)
    (v : VectorMap) :
    vkeys (vfold f g l v) = vkeys v ∪ (l.map f).toFinset := by
  induction l generalizing v with
  | nil => simp [vfold]
  | cons x l ih =>
    rw [vfold_cons, ih, vkeys_vset]
    ext a
    simp only [Finset.mem_union, Finset.mem_singleton, List.map_cons,
      List.mem_toFinset, List.mem_map, List.mem_cons]
    tauto

lemma vget_vfold_of_ne {α : Type} (f : α → String) (g : α → ℝ)
    (l : List α) (v : VectorMap) (k : String) (h : ∀ x ∈ l, f x ≠ k) :
    vget (vfold f g l v) k = vget v k := by
  induction l generalizing v with
  | nil => rfl
  | cons x l ih =>
    rw [vfold_cons, ih _ (fun y hy => h y (List.mem_cons_of_mem _ hy))]
    rw [vget_vset]
    exact if_neg (fun he => h x (List.mem_cons_self _ _) he.symm)

lemma vget_vfold_const {α : Type} (f : α → String) (c : ℝ) (l : List α)
    (v : VectorMap) (k : String) (h : ∃ x ∈ l, f x = k) :
    vget (vfold f (fun _ => c) l v) k = c := by
  induction l generalizing v with
  | nil => simp at h
  | cons x l ih =>
    rw [vfold_cons]
    by_cases hex : ∃ y ∈ l, f y = k
    · exact ih _ hex
    · push_neg at hex
      rw [vget_vfold_of_ne _ _ _ _ _ hex, vget_vset]
      rcases h with ⟨y, hy, hfy⟩
      rcases List.mem_cons.1 hy with rfl | hmem
      · exact if_pos hfy.symm
      · exact absurd hfy (hex y hmem)

lemma vget_vfold_nodup {α : Type} (f : α → String) (g : α → ℝ)
    (l : List α) (v : VectorMap) (hnd : (l.map f).Nodup)
    (x : α) (hx : x ∈ l) :
    vget (vfold f g l v) (f x) = g x := by
  induction l generalizing v with
  | nil => simp at hx
  | cons y l ih =>
    rw [vfold_cons]
    rcases List.mem_cons.1 hx with rfl | hmem
    · have hni : ∀ z ∈ l, f z ≠ f x := by
        intro z hz he
        exact (List.nodup_cons.1 hnd).1 (he ▸ List.mem_map_of_mem f hz)
      rw [vget_vfold_of_ne _ _ _ _ _ hni, vget_vset, if_pos rfl]
    · exact ih _ (List.nodup_cons.1 hnd).2 hmem

lemma vget_vfold_congr {α : Type} (f : α → String) (g : α → ℝ)
    (l : List α) (v w : VectorMap) (k : String) (h : vget v k = vget w k) :
    vget (vfold f g l v) k = vget (vfold f g l w) k := by
  induction l generalizing v w with
  | nil => exact h
  | cons x l ih =>
    rw [vfold_cons, vfold_cons]
    apply ih
    rw [vget_vset, vget_vset]
    by_cases hk : k = f x
    · simp [hk]
    · simp [hk, h]

lemma string_append_cancel {p a b : String} (h : p ++ a = p ++ b) : a = b := by
  have h2 := congrArg String.data h
  rw [String.data_append, String.data_append] at h2
  exact String.ext (List.append_cancel_left h2)

lemma personality_key_ne_interest_key (a b : String) :
    "personality_" ++ a ≠ "interest_" ++ b := by
  intro h
  have h2 := congrArg String.data h
  rw [String.data_append, String.data_append] at h2
  have h3 : 'p' :: ("ersonality_".data ++ a.data)
      = 'i' :: ("nterest_".data ++ b.data) := h2
  simp at h3

lemma personality_key_ne_value_key (a b : String) :
    "personality_" ++ a ≠ "value_" ++ b := by
  intro h
  have h2 := congrArg String.data h
  rw [String.data_append, String.data_append] at h2
  have h3 : 'p' :: ("ersonality_".data ++ a.data)
      = 'v' :: ("alue_".data ++ b.data) := h2
  simp at h3

lemma interest_key_ne_value_key (a b : String) :
    "interest_" ++ a ≠ "value_" ++ b := by
  intro h
  have h2 := congrArg String.data h
  rw [String.data_append, String.data_append] at h2
  have h3 : 'i' :: ("nterest_".data ++ a.data)
      = 'v' :: ("alue_".data ++ b.data) := h2
  simp at h3

/-- C8: if either argument of `cosineSimilarity` has a squared norm of
exactly zero — e.g. an empty vector — the result is exactly `0` and no
division by zero occurs; in particular the similarity of the empty vector
against any vector (and against itself) is `0`. -/
theorem similarity_zero_norm_safe :
    (∀ b : VectorMap, cosineSimilarity [] b = 0) ∧
    cosineSimilarity [] [] = 0 ∧
    ∀ a b : VectorMap,
      sumSq (vkeys a ∪ vkeys b) a = 0 ∨ sumSq (vkeys a ∪ vkeys b) b = 0 →
      cosineSimilarity a b = 0 := by
  have hempty : ∀ b : VectorMap,
      sumSq (vkeys ([] : VectorMap) ∪ vkeys b) [] = 0 := by
    intro b
    apply Finset.sum_eq_zero
    intro k _
    simp [vget]
  refine ⟨fun b => ?_, ?_, fun a b h => ?_⟩
  · unfold cosineSimilarity
    rw [if_pos (Or.inl (hempty b))]
  · unfold cosineSimilarity
    rw [if_pos (Or.inl (hempty []))]
  · unfold cosineSimilarity
    rw [if_pos h]

/-- Witness for C8: the zero-norm branch fires on the concrete pair
`({}, {"interest_x": 1})`. -/
theorem similarity_zero_norm_safe_witness :
    cosineSimilarity [] [("interest_x", 1)] = 0 :=
  similarity_zero_norm_safe.2.2 [] [("interest_x", 1)]
    (Or.inl (Finset.sum_eq_zero fun k _ => by simp [vget]))

/-- Witness for C7: the bounds hold on the concrete all-nonnegative pair
`({"interest_x": 1}, {"interest_x": 1})`. -/
theorem similarity_bounded_of_nonneg_witness :
    0 ≤ cosineSimilarity [("interest_x", 1)] [("interest_x", 1)] ∧
      cosineSimilarity [("interest_x", 1)] [("interest_x", 1)] ≤ 1 := by
  have hnn : ∀ k, 0 ≤ vget [(("interest_x" : String), (1 : ℝ))] k := by
    intro k
    unfold vget
    rw [List.lookup_cons]
    rcases h : (k == "interest_x") with _ | _
    · simp [h]
    · simp [h]
  exact similarity_bounded_of_nonneg _ _ hnn hnn

/-- C6 (amended): the source namespaces feature keys with
`"personality_" + name`, `"interest_" + keyword` and `"value_" + keyword`
(underscore separator, not the colon the claim states). With distinct
personality-trait names (a JavaScript object guarantee), every personality
trait reads back as its intensity, every interest and value keyword reads
back as `1.0`, the key set is exactly the union of the three namespaced
key families (so repeated keywords collapse), and the empty profile
vectorizes to the empty vector. -/
theorem traitsToVector_spec (t : UserTraits)
    (hnd : (t.personalityTraits.map Prod.fst).Nodup) :
    (∀ r ∈ t.personalityTraits,
      vget (traitsToVector t) ("personality_" ++ r.1) = r.2) ∧
    (∀ i ∈ t.interests, vget (traitsToVector t) ("interest_" ++ i) = 1) ∧
    (∀ s ∈ t.values, vget (traitsToVector t) ("value_" ++ s) = 1) ∧
    vkeys (traitsToVector t) =
      (t.personalityTraits.map (fun p => "personality_" ++ p.1)).toFinset ∪
        (t.interests.map (fun i => "interest_" ++ i)).toFinset ∪
        (t.values.map (fun s => "value_" ++ s)).toFinset ∧
    traitsToVector ⟨[], [], []⟩ = [] := by
  refine ⟨?_, ?_, ?_, ?_, rfl⟩
  · intro r hr
    unfold traitsToVector
    rw [vget_vfold_of_ne _ _ _ _ _
      (fun s _ => Ne.symm (personality_key_ne_value_key r.1 s))]
    rw [vget_vfold_of_ne _ _ _ _ _
      (fun i _ => Ne.symm (personality_key_ne_interest_key r.1 i))]
    have hnd2 : (t.personalityTraits.map
        (fun p : String × ℝ => "personality_" ++ p.1)).Nodup := by
      have he : (fun p : String × ℝ => "personality_" ++ p.1)
          = (fun s => "personality_" ++ s) ∘ Prod.fst := rfl
      rw [he, ← List.map_map]
      exact List.Nodup.map (fun a b h => string_append_cancel h) hnd
    exact vget_vfold_nodup _ _ _ _ hnd2 r hr
  · intro i hi
    unfold traitsToVector
    rw [vget_vfold_of_ne _ _ _ _ _
      (fun s _ => Ne.symm (interest_key_ne_value_key i s))]
    exact vget_vfold_const _ _ _ _ _ ⟨i, hi, rfl⟩
  · intro s hs
    unfold traitsToVector
    exact vget_vfold_const _ _ _ _ _ ⟨s, hs, rfl⟩
  · unfold traitsToVector
    rw [vkeys_vfold, vkeys_vfold, vkeys_vfold]
    have he : vkeys ([] : VectorMap) = ∅ := rfl
    rw [he, Finset.empty_union]

/-- Witness for C6: the amended characterization evaluated on the concrete
profile `{openness: 0.8}, ["hiking"], ["honesty"]`. -/
theorem traitsToVector_spec_witness :
    vget (traitsToVector ⟨[("openness", 0.8)], ["hiking"], ["honesty"]⟩)
      "personality_openness" = 0.8 ∧
    vget (traitsToVector ⟨[("openness", 0.8)], ["hiking"], ["honesty"]⟩)
      "interest_hiking" = 1 := by
  have h := traitsToVector_spec ⟨[("openness", 0.8)], ["hiking"], ["honesty"]⟩
    (by simp)
  exact ⟨h.1 ("openness", 0.8) (by simp), h.2.1 "hiking" (by simp)⟩

/-- C6 counterexample: the claim states the personality feature key is
`"personality:" + name`, but the code emits `"personality_" + name`: on the
profile `{x: 1}` the synthesized key set is `{"personality_x"}` and the
claimed key `"personality:x"` is absent (reads as `0`). -/
theorem traitsToVector_colon_key_counterexample :
    vkeys (traitsToVector ⟨[("x", 1)], [], []⟩) = {"personality_x"} ∧
    "personality:x" ∉ vkeys (traitsToVector ⟨[("x", 1)], [], []⟩) ∧
    vget (traitsToVector ⟨[("x", 1)], [], []⟩) "personality:x" = 0 := by
  have hkeys : vkeys (traitsToVector ⟨[("x", 1)], [], []⟩)
      = {"personality_x"} := by
    unfold traitsToVector
    rw [vkeys_vfold, vkeys_vfold, vkeys_vfold]
    have he : vkeys ([] : VectorMap) = ∅ := rfl
    rw [he, Finset.empty_union]
    rfl
  have hmem : "personality:x" ∉ vkeys (traitsToVector ⟨[("x", 1)], [], []⟩) := by
    rw [hkeys]
    decide
  exact ⟨hkeys, hmem, vget_not_mem _ _ hmem⟩

/-- C10: inserting a key with weight exactly `0` into either argument
of `cosineSimilarity` leaves the result unchanged (a missing key and an
explicitly stored zero are indistinguishable), and consequently a trait
profile extended with a fresh personality trait of intensity `0` scores
identically against every other profile. -/
theorem similarity_zero_weight_irrelevant (a b : VectorMap) (k : String)
    (hk : a.lookup k = none) :
    cosineSimilarity (vset a k 0) b = cosineSimilarity a b ∧
    cosineSimilarity b (vset a k 0) = cosineSimilarity b a ∧
    ∀ (p q : UserTraits) (t : String),
      (∀ r ∈ p.personalityTraits, r.1 ≠ t) →
      calculateUserSimilarity
          ⟨p.personalityTraits ++ [(t, 0)], p.interests, p.values⟩ q
        = calculateUserSimilarity p q := by
  have hget : ∀ k', vget (vset a k 0) k' = vget a k' := by
    intro k'
    rw [vget_vset]
    by_cases h : k' = k
    · subst h
      rw [if_pos rfl]
      unfold vget
      rw [hk]
      rfl
    · rw [if_neg h]
  have hsub : vkeys a ⊆ vkeys (vset a k 0) := by
    rw [vkeys_vset]
    exact Finset.subset_union_left
  refine ⟨cosineSimilarity_congr_left a (vset a k 0) b hget hsub, ?_, ?_⟩
  · rw [cosineSimilarity_comm b (vset a k 0), cosineSimilarity_comm b a]
    exact cosineSimilarity_congr_left a (vset a k 0) b hget hsub
  · intro p q t ht
    unfold calculateUserSimilarity
    have hkey : ("personality_" ++ t) ∉ vkeys (vfold
        (fun r : String × ℝ => "personality_" ++ r.1) (fun r => r.2)
        p.personalityTraits []) := by
      rw [vkeys_vfold]
      intro hx
      rcases Finset.mem_union.1 hx with hx | hx
      · simp [vkeys] at hx
      · rcases List.mem_map.1 (List.mem_toFinset.1 hx) with ⟨r, hr, he⟩
        exact ht r hr (string_append_cancel he)
    have hget1 : ∀ k', vget (vfold
          (fun r : String × ℝ => "personality_" ++ r.1) (fun r => r.2)
          (p.personalityTraits ++ [(t, 0)]) []) k'
        = vget (vfold (fun r : String × ℝ => "personality_" ++ r.1)
          (fun r => r.2) p.personalityTraits []) k' := by
      intro k'
      rw [vfold_append_single, vget_vset]
      by_cases h : k' = "personality_" ++ t
      · rw [if_pos h, h]
        exact (vget_not_mem _ _ hkey).symm
      · rw [if_neg h]
    apply cosineSimilarity_congr_left
    · intro k'
      unfold traitsToVector
      exact vget_vfold_congr _ _ _ _ _ _
        (vget_vfold_congr _ _ _ _ _ _ (hget1 k'))
    · unfold traitsToVector
      intro x hx
      rw [vkeys_vfold, vkeys_vfold, vkeys_vfold] at hx ⊢
      simp only [List.map_append, List.toFinset_append, Finset.mem_union] at hx ⊢
      tauto

/-- Witness for C10: inserting the fresh key `"value_y"` with weight `0`
into the concrete vector `{"interest_x": 1}` leaves its similarity with
itself unchanged. -/
theorem similarity_zero_weight_irrelevant_witness :
    cosineSimilarity (vset [("interest_x", 1)] "value_y" 0) [("interest_x", 1)]
      = cosineSimilarity [("interest_x", 1)] [("interest_x", 1)] := by
  have hk : ([(("interest_x" : String), (1 : ℝ))].lookup "value_y") = none := by
    rw [List.lookup_cons]
    rcases h : (("value_y" : String) == "interest_x") with _ | _
    · simp [h]
    · exact absurd (beq_iff_eq.1 h) (by decide)
  exact (similarity_zero_weight_irrelevant
    [("interest_x", 1)] [("interest_x", 1)] "value_y" hk).1

/-! ### The database embedding and the match ranker -/

/-- A row of the `Match` table: an id and the ordered pair
`(userAId, userBId)` as stored. -/
structure MatchRow where
  id : Nat
  userAId : Nat
  userBId : Nat
deriving DecidableEq

/-- A row of the `User` table, restricted to the fields the matching core
reads: id, name, bio, communityId and the nullable trait vector. -/
structure User where
  id : Nat
  name : String
  bio : Option String
  communityId : Nat
  traitVector : Option UserTraits

/-- The database state consumed by the core: the `User` rows, the directed
`Like` rows `(fromUserId, toUserId)`, the `Match` rows, and the next
auto-increment id for `Match`. -/
structure DB where
  users : List User
  likes : List (Nat × Nat)
  matchRows : List MatchRow
  nextMatchId : Nat

/-- One element of `findCompatibleUsers`' result list. -/
structure ScoredUser where
  id : Nat
  name : String
  bio : Option String
  similarityScore : ℝ

/-- The default empty trait profile (placeholder for the unreachable
`null` cast inside the scoring map). -/
def defaultTraits : UserTraits := ⟨[], [], []⟩

/-- The `communityUsers` query of `findCompatibleUsers`: all users in the
requester's community other than the requester. -/
def communityUsers (db : DB) (userId : Nat) (user : User) : List User :=
  db.users.filter (fun u => u.communityId == user.communityId && u.id != userId)

/-- The `potentialMatches` filter of `findCompatibleUsers`: keep community
users the requester has not yet liked and that have a trait vector. -/
def potentialMatches (db : DB) (userId : Nat) (user : User) : List User :=
  (communityUsers db userId user).filter
    (fun u => !(decide ((userId, u.id) ∈ db.likes)) && u.traitVector.isSome)

/-- The `matchesWithScores` map of `findCompatibleUsers`: score every
potential match against the requester's trait vector. -/
noncomputable def matchesWithScores (db : DB) (userId : Nat) (user : User)
    (tv : UserTraits) : List ScoredUser :=
  (potentialMatches db userId user).map
    (fun u => ⟨u.id, u.name, u.bio,
      calculateUserSimilarity tv (u.traitVector.getD defaultTraits)⟩)

/-- The `.sort((a, b) => b.similarityScore - a.similarityScore)` step:
sort by similarity score, descending. -/
noncomputable def sortScoredDesc (l : List ScoredUser) : List ScoredUser :=
  l.mergeSort (fun x y => decide (y.similarityScore ≤ x.similarityScore))

/-- Function `findCompatibleUsers(userId, limit)` from `src/services/matching.ts`:
resolve the requester (error if absent), require a trait vector (error if
null), filter the community to potential matches, score them, sort by
score descending and truncate to `limit`. -/
noncomputable def findCompatibleUsers (db : DB) (userId : Nat)
    (limit : Nat) : Except String (List ScoredUser) :=
  match db.users.find? (fun u => u.id == userId) with
  | none => Except.error "User not found"
  | some user =>
    match user.traitVector with
    | none => Except.error "User does not have trait vector data"
    | some tv =>
      Except.ok ((sortScoredDesc (matchesWithScores db userId user tv)).take limit)

/-- Unfolding of membership in the potential-match pool. -/
lemma mem_potentialMatches (db : DB) (userId : Nat) (user : User) (u : User) :
    u ∈ potentialMatches db userId user ↔
      u ∈ db.users ∧ u.communityId = user.communityId ∧ u.id ≠ userId ∧
        (userId, u.id) ∉ db.likes ∧ u.traitVector.isSome := by
  unfold potentialMatches communityUsers
  simp only [List.mem_filter, Bool.and_eq_true, beq_iff_eq, bne_iff_ne,
    Bool.not_eq_true', decide_eq_false_iff_not, ne_eq]
  tauto

/-- C5: `findCompatibleUsers` fails exactly when the requester record
is absent (`"User not found"`) or the requester's trait vector is null
(`"User does not have trait vector data"`, the MissingProfile condition);
when the requester exists and has a trait vector it produces a result
list, never an error. -/
theorem findCompatibleUsers_error_iff (db : DB) (userId limit : Nat) :
    (db.users.find? (fun u => u.id == userId) = none →
      findCompatibleUsers db userId limit = Except.error "User not found") ∧
    (∀ user, db.users.find? (fun u => u.id == userId) = some user →
      user.traitVector = none →
      findCompatibleUsers db userId limit
        = Except.error "User does not have trait vector data") ∧
    (∀ user tv, db.users.find? (fun u => u.id == userId) = some user →
      user.traitVector = some tv →
      ∃ l, findCompatibleUsers db userId limit = Except.ok l) := by
  refine ⟨fun h => ?_, fun user hu hn => ?_, fun user tv hu ht => ?_⟩
  · unfold findCompatibleUsers
    simp only [h]
  · unfold findCompatibleUsers
    simp only [hu, hn]
  · unfold findCompatibleUsers
    simp only [hu, ht]
    exact ⟨_, rfl⟩

/-- A requester with a null trait vector. -/
def userNoTv : User := ⟨1, "A", none, 1, none⟩

/-- A requester with an (empty) trait vector. -/
def userSolo : User := ⟨2, "B", none, 1, some defaultTraits⟩

/-- A two-user database: user 1 has no trait vector, user 2 has one; no
likes, no matches. -/
def dbSolo : DB := ⟨[userNoTv, userSolo], [], [], 0⟩

/-- Witness for C5: both error branches and the success branch fire on the
concrete database `dbSolo`. -/
theorem findCompatibleUsers_error_iff_witness :
    findCompatibleUsers dbSolo 3 5 = Except.error "User not found" ∧
    findCompatibleUsers dbSolo 1 5
      = Except.error "User does not have trait vector data" ∧
    ∃ l, findCompatibleUsers dbSolo 2 5 = Except.ok l :=
  ⟨(findCompatibleUsers_error_iff dbSolo 3 5).1 rfl,
    (findCompatibleUsers_error_iff dbSolo 1 5).2.1 userNoTv rfl rfl,
    (findCompatibleUsers_error_iff dbSolo 2 5).2.2 userSolo defaultTraits
      rfl rfl⟩

/-- C3: every entry of the ranking comes from a user in the
requester's community who is not the requester, has not been liked by the
requester and has a trait vector; an already-liked candidate never appears
in the output; and every eligible candidate (in particular one who has
liked the requester — no condition on that direction) does appear whenever
it fits in the limit. -/
theorem findCompatibleUsers_membership (db : DB) (userId limit : Nat)
    (user : User) (res : List ScoredUser)
    (hu : db.users.find? (fun u => u.id == userId) = some user)
    (hres : findCompatibleUsers db userId limit = Except.ok res) :
    (∀ e ∈ res, ∃ u ∈ db.users,
      u.id = e.id ∧ u.communityId = user.communityId ∧ u.id ≠ userId ∧
        (userId, u.id) ∉ db.likes ∧ u.traitVector.isSome) ∧
    (∀ e ∈ res, (userId, e.id) ∉ db.likes) ∧
    (∀ u ∈ db.users, u.communityId = user.communityId → u.id ≠ userId →
      (userId, u.id) ∉ db.likes → u.traitVector.isSome = true →
      (potentialMatches db userId user).length ≤ limit →
      ∃ e ∈ res, e.id = u.id) := by
  unfold findCompatibleUsers at hres
  rw [hu] at hres
  dsimp only at hres
  rcases htv : user.traitVector with _ | tv
  · rw [htv] at hres
    simp at hres
  · rw [htv] at hres
    dsimp only at hres
    injection hres with hres2
    subst hres2
    have hmm : ∀ e ∈ (sortScoredDesc (matchesWithScores db userId user tv)).take
        limit, e ∈ matchesWithScores db userId user tv := by
      intro e he
      have h3 := List.mem_of_mem_take he
      unfold sortScoredDesc at h3
      exact List.mem_mergeSort.1 h3
    refine ⟨?_, ?_, ?_⟩
    · intro e he
      rcases List.mem_map.1 (hmm e he) with ⟨u, hup, rfl⟩
      rcases (mem_potentialMatches db userId user u).1 hup with
        ⟨h1, h2, h3, h4, h5⟩
      exact ⟨u, h1, rfl, h2, h3, h4, h5⟩
    · intro e he
      rcases List.mem_map.1 (hmm e he) with ⟨u, hup, rfl⟩
      exact ((mem_potentialMatches db userId user u).1 hup).2.2.2.1
    · intro u hu3 hc hne hlike htv2 hlen
      have hpm : u ∈ potentialMatches db userId user :=
        (mem_potentialMatches db userId user u).2 ⟨hu3, hc, hne, hlike, htv2⟩
      have hscored : (⟨u.id, u.name, u.bio,
          calculateUserSimilarity tv (u.traitVector.getD defaultTraits)⟩ :
          ScoredUser) ∈ matchesWithScores db userId user tv :=
        List.mem_map_of_mem _ hpm
      have hlen2 : (sortScoredDesc (matchesWithScores db userId user tv)).length
          ≤ limit := by
        unfold sortScoredDesc
        rw [List.length_mergeSort]
        unfold matchesWithScores
        rw [List.length_map]
        exact hlen
      rw [List.take_of_length_le hlen2]
      refine ⟨⟨u.id, u.name, u.bio,
        calculateUserSimilarity tv (u.traitVector.getD defaultTraits)⟩, ?_, rfl⟩
      unfold sortScoredDesc
      exact List.mem_mergeSort.2 hscored

/-- Witness for C3: the membership theorem applied to the concrete
database `dbSolo` with requester 2 (whose candidate pool is empty, so the
ranking is the empty list). -/
theorem findCompatibleUsers_membership_witness :
    findCompatibleUsers dbSolo 2 5 = Except.ok [] ∧
    ∀ e ∈ ([] : List ScoredUser), (2, e.id) ∉ dbSolo.likes := by
  have h0 : matchesWithScores dbSolo 2 userSolo defaultTraits = [] := rfl
  have hres : findCompatibleUsers dbSolo 2 5 = Except.ok [] := by
    show Except.ok ((sortScoredDesc
      (matchesWithScores dbSolo 2 userSolo defaultTraits)).take 5)
      = Except.ok []
    rw [h0]
    unfold sortScoredDesc
    rw [List.mergeSort_nil]
    rfl
  exact ⟨hres,
    (findCompatibleUsers_membership dbSolo 2 5 userSolo [] rfl hres).2.1⟩

/-- C4: for a requester with a trait vector and a positive limit, the
ranking succeeds (no error), is sorted in descending score order, has
length at most `limit`; an empty candidate set yields the empty list, and
with `limit = 1` and a non-empty scored pool the single returned entry has
the maximal score. -/
theorem findCompatibleUsers_sorted_limit (db : DB) (userId limit : Nat)
    (user : User) (tv : UserTraits) (hpos : 0 < limit)
    (hu : db.users.find? (fun u => u.id == userId) = some user)
    (htv : user.traitVector = some tv) :
    ∃ res, findCompatibleUsers db userId limit = Except.ok res ∧
      res.Pairwise (fun x y => y.similarityScore ≤ x.similarityScore) ∧
      res.length ≤ limit ∧
      (potentialMatches db userId user = [] → res = []) ∧
      (limit = 1 → matchesWithScores db userId user tv ≠ [] →
        ∃ m, res = [m] ∧
          ∀ e ∈ matchesWithScores db userId user tv,
            e.similarityScore ≤ m.similarityScore) := by
  have htr : ∀ (a b c : ScoredUser),
      decide (b.similarityScore ≤ a.similarityScore) →
      decide (c.similarityScore ≤ b.similarityScore) →
      decide (c.similarityScore ≤ a.similarityScore) := by
    intro a b c h1 h2
    simp only [decide_eq_true_eq] at *
    exact le_trans h2 h1
  have hto : ∀ (a b : ScoredUser),
      decide (b.similarityScore ≤ a.similarityScore) ||
        decide (a.similarityScore ≤ b.similarityScore) := by
    intro a b
    rcases le_total b.similarityScore a.similarityScore with h | h <;> simp [h]
  have hs2 : (sortScoredDesc (matchesWithScores db userId user tv)).Pairwise
      (fun x y => y.similarityScore ≤ x.similarityScore) := by
    unfold sortScoredDesc
    have hs := List.sorted_mergeSort htr hto (matchesWithScores db userId user tv)
    exact hs.imp (fun h => by simpa using h)
  refine ⟨(sortScoredDesc (matchesWithScores db userId user tv)).take limit,
    ?_, ?_, ?_, ?_, ?_⟩
  · unfold findCompatibleUsers
    rw [hu]
    dsimp only
    rw [htv]
  · exact List.Pairwise.sublist (List.take_sublist _ _) hs2
  · rw [List.length_take]
    exact min_le_left _ _
  · intro hempty
    unfold sortScoredDesc matchesWithScores
    rw [hempty]
    simp
  · intro h1 hne
    subst h1
    have hperm := List.mergeSort_perm (matchesWithScores db userId user tv)
      (fun x y => decide (y.similarityScore ≤ x.similarityScore))
    have hsne : sortScoredDesc (matchesWithScores db userId user tv) ≠ [] := by
      unfold sortScoredDesc
      intro h
      apply hne
      have h2 := hperm
      rw [h] at h2
      exact h2.symm.eq_nil
    obtain ⟨m, rest, hcons⟩ := List.exists_cons_of_ne_nil hsne
    refine ⟨m, ?_, ?_⟩
    · rw [hcons]
      rfl
    · intro e he
      have hes : e ∈ sortScoredDesc (matchesWithScores db userId user tv) := by
        unfold sortScoredDesc
        exact List.mem_mergeSort.2 he
      rw [hcons] at hes hs2
      rcases List.mem_cons.1 hes with rfl | hmem
      · exact le_refl _
      · exact (List.pairwise_cons.1 hs2).1 e hmem

/-- Witness for C4: the sorted/limit theorem applied to the concrete
database `dbSolo` with requester 2 and limit 5. -/
theorem findCompatibleUsers_sorted_limit_witness :
    ∃ res, findCompatibleUsers dbSolo 2 5 = Except.ok res ∧
      res.Pairwise (fun x y => y.similarityScore ≤ x.similarityScore) ∧
      res.length ≤ 5 ∧
      (potentialMatches dbSolo 2 userSolo = [] → res = []) ∧
      (5 = 1 → matchesWithScores dbSolo 2 userSolo defaultTraits ≠ [] →
        ∃ m, res = [m] ∧
          ∀ e ∈ matchesWithScores dbSolo 2 userSolo defaultTraits,
            e.similarityScore ≤ m.similarityScore) :=
  findCompatibleUsers_sorted_limit dbSolo 2 5 userSolo defaultTraits
    (by decide) rfl rfl

/-! ### The reciprocity resolver -/

/-- Function `checkMutualLike(userAId, userBId)` from `src/services/matching.ts`:
both directed likes exist. -/
def checkMutualLike (db : DB) (userAId userBId : Nat) : Bool :=
  decide ((userAId, userBId) ∈ db.likes) &&
    decide ((userBId, userAId) ∈ db.likes)

/-- The `OR` clause of the `match.findFirst` query: the row stores the
pair in either orientation. -/
def matchPairPred (userAId userBId : Nat) (m : MatchRow) : Bool :=
  (m.userAId == userAId && m.userBId == userBId) ||
    (m.userAId == userBId && m.userBId == userAId)

/-- Number of `Match` rows stored for the unordered pair `{a, b}`. -/
def pairMatchCount (db : DB) (a b : Nat) : Nat :=
  db.matchRows.countP (matchPairPred a b)

/-- Function `createMatchIfMutualLike(userAId, userBId)` from
`src/services/matching.ts`: return null unless a mutual like exists;
otherwise return the existing match for the pair (either orientation) if
any, else insert a fresh match row `(userAId, userBId)`. -/
def createMatchIfMutualLike (db : DB) (userAId userBId : Nat) :
    Option MatchRow × DB :=
  if checkMutualLike db userAId userBId then
    match db.matchRows.find? (matchPairPred userAId userBId) with
    | some m => (some m, db)
    | none =>
      (some ⟨db.nextMatchId, userAId, userBId⟩,
        ⟨db.users, db.likes,
          db.matchRows ++ [⟨db.nextMatchId, userAId, userBId⟩],
          db.nextMatchId + 1⟩)
  else (none, db)

/-- The `DELETE /like/:userId` handler of `src/routes/match.ts`
(`resolveAfterUnlike`): delete the directed like (404/`none` when it does
not exist), then find the pair's match in either orientation and delete it
by id when present, reporting `matchDeleted`. -/
def resolveAfterUnlike (db : DB) (fromUserId toUserId : Nat) :
    Option (Bool × DB) :=
  if (fromUserId, toUserId) ∈ db.likes then
    let db1 : DB := ⟨db.users,
      db.likes.filter (fun l => !(l == (fromUserId, toUserId))),
      db.matchRows, db.nextMatchId⟩
    match db1.matchRows.find? (matchPairPred fromUserId toUserId) with
    | some m =>
      some (true, ⟨db1.users, db1.likes,
        db1.matchRows.filter (fun r => !(r.id == m.id)), db1.nextMatchId⟩)
    | none => some (false, db1)
  else none

/-- The pair predicate is orientation-insensitive. -/
lemma matchPairPred_comm (a b : Nat) (m : MatchRow) :
    matchPairPred a b m = matchPairPred b a m := by
  unfold matchPairPred
  exact Bool.or_comm _ _

/-- If exactly one row satisfies `p` and `find?` picks `m`, then removing
every row carrying `m`'s id leaves no row satisfying `p`. -/
lemma countP_filter_id_eq_zero (l : List MatchRow) (p : MatchRow → Bool)
    (m : MatchRow) (hc : l.countP p = 1) (hf : l.find? p = some m) :
    (l.filter (fun r => !(r.id == m.id))).countP p = 0 := by
  induction l with
  | nil => simp at hf
  | cons x l ih =>
    by_cases hp : p x
    · rw [List.find?_cons_of_pos _ hp] at hf
      injection hf with hf
      subst hf
      rw [List.countP_cons_of_pos _ _ hp] at hc
      have hl : l.countP p = 0 := by omega
      rw [List.filter_cons]
      have hxid : (!(x.id == x.id)) = false := by simp
      rw [hxid, if_neg Bool.false_ne_true]
      have hle : (l.filter (fun r => !(r.id == x.id))).countP p ≤ l.countP p :=
        (List.filter_sublist l).countP_le p
      omega
    · rw [List.find?_cons_of_neg _ hp] at hf
      rw [List.countP_cons_of_neg _ _ hp] at hc
      rw [List.filter_cons]
      by_cases hk : (!(x.id == m.id)) = true
      · rw [hk, if_pos rfl, List.countP_cons_of_neg _ _ hp]
        exact ih hc hf
      · rw [Bool.not_eq_true] at hk
        rw [hk, if_neg Bool.false_ne_true]
        exact ih hc hf

/-- C1: for distinct users with both directed likes present and no
match stored for the pair, `createMatchIfMutualLike` creates exactly one
match; calling it again in either argument order returns that same match
and leaves the database unchanged; and when the reverse like is absent it
returns null and changes nothing. -/
theorem createMatchIfMutualLike_idem (db : DB) (a b : Nat) (_hab : a ≠ b) :
    ((a, b) ∈ db.likes → (b, a) ∈ db.likes → pairMatchCount db a b = 0 →
      ∃ m db1, createMatchIfMutualLike db a b = (some m, db1) ∧
        pairMatchCount db1 a b = 1 ∧
        createMatchIfMutualLike db1 a b = (some m, db1) ∧
        createMatchIfMutualLike db1 b a = (some m, db1)) ∧
    ((b, a) ∉ db.likes → createMatchIfMutualLike db a b = (none, db)) := by
  constructor
  · intro h1 h2 hc0
    have hmut : checkMutualLike db a b = true := by
      unfold checkMutualLike
      simp [h1, h2]
    have hall : ∀ x ∈ db.matchRows, ¬matchPairPred a b x :=
      List.countP_eq_zero.1 hc0
    have hfind : db.matchRows.find? (matchPairPred a b) = none :=
      List.find?_eq_none.2 hall
    have hpredNew : matchPairPred a b ⟨db.nextMatchId, a, b⟩ = true := by
      unfold matchPairPred
      simp
    refine ⟨⟨db.nextMatchId, a, b⟩,
      ⟨db.users, db.likes, db.matchRows ++ [(⟨db.nextMatchId, a, b⟩ : MatchRow)],
        db.nextMatchId + 1⟩, ?_, ?_, ?_, ?_⟩
    · unfold createMatchIfMutualLike
      rw [if_pos hmut, hfind]
    · show (db.matchRows ++ [(⟨db.nextMatchId, a, b⟩ : MatchRow)]).countP
        (matchPairPred a b) = 1
      rw [List.countP_append]
      unfold pairMatchCount at hc0
      rw [hc0, List.countP_cons_of_pos _ _ hpredNew, List.countP_nil]
    · unfold createMatchIfMutualLike
      have hmut1 : checkMutualLike (DB.mk db.users db.likes
          (db.matchRows ++ [(⟨db.nextMatchId, a, b⟩ : MatchRow)])
          (db.nextMatchId + 1)) a b = true := by
        unfold checkMutualLike
        simp [h1, h2]
      rw [if_pos hmut1]
      have hfind1 : (DB.mk db.users db.likes
          (db.matchRows ++ [(⟨db.nextMatchId, a, b⟩ : MatchRow)])
          (db.nextMatchId + 1)).matchRows.find? (matchPairPred a b)
          = some ⟨db.nextMatchId, a, b⟩ := by
        show (db.matchRows ++ [(⟨db.nextMatchId, a, b⟩ : MatchRow)]).find?
          (matchPairPred a b) = _
        rw [List.find?_append, hfind, List.find?_cons_of_pos _ hpredNew]
        rfl
      rw [hfind1]
    · unfold createMatchIfMutualLike
      have hmut2 : checkMutualLike (DB.mk db.users db.likes
          (db.matchRows ++ [(⟨db.nextMatchId, a, b⟩ : MatchRow)])
          (db.nextMatchId + 1)) b a = true := by
        unfold checkMutualLike
        simp [h1, h2]
      rw [if_pos hmut2]
      have hpredNew2 : matchPairPred b a ⟨db.nextMatchId, a, b⟩ = true := by
        rw [← matchPairPred_comm]
        exact hpredNew
      have hall2 : ∀ x ∈ db.matchRows, ¬matchPairPred b a x := by
        intro x hx
        rw [← matchPairPred_comm]
        exact hall x hx
      have hfind2 : (DB.mk db.users db.likes
          (db.matchRows ++ [(⟨db.nextMatchId, a, b⟩ : MatchRow)])
          (db.nextMatchId + 1)).matchRows.find? (matchPairPred b a)
          = some ⟨db.nextMatchId, a, b⟩ := by
        show (db.matchRows ++ [(⟨db.nextMatchId, a, b⟩ : MatchRow)]).find?
          (matchPairPred b a) = _
        rw [List.find?_append, List.find?_eq_none.2 hall2,
          List.find?_cons_of_pos _ hpredNew2]
        rfl
      rw [hfind2]
  · intro h2
    unfold createMatchIfMutualLike
    have hmut : ¬(checkMutualLike db a b = true) := by
      unfold checkMutualLike
      simp [h2]
    rw [if_neg hmut]

/-- Like rows for a mutual pair (1, 2), no match rows. -/
def dbLikes : DB := ⟨[], [(1, 2), (2, 1)], [], 0⟩

/-- Witness for C1: the idempotent-creation theorem applied to the
concrete two-like database `dbLikes`. -/
theorem createMatchIfMutualLike_idem_witness :
    ∃ m db1, createMatchIfMutualLike dbLikes 1 2 = (some m, db1) ∧
      pairMatchCount db1 1 2 = 1 ∧
      createMatchIfMutualLike db1 1 2 = (some m, db1) ∧
      createMatchIfMutualLike db1 2 1 = (some m, db1) :=
  (createMatchIfMutualLike_idem dbLikes 1 2 (by decide)).1
    (by decide) (by decide) (by decide)

/-- C2: after a match exists for a pair (stored in either
orientation), deleting a directed like via the `DELETE /like/:userId`
handler deletes the pair's match in the same operation and reports
`matchDeleted = true`, leaving no match for the pair; when no match
existed, it reports `matchDeleted = false` and the match table is
untouched. -/
theorem unlike_deletes_match (db : DB) (a b : Nat)
    (hlike : (a, b) ∈ db.likes) :
    (pairMatchCount db a b = 1 →
      ∃ db1, resolveAfterUnlike db a b = some (true, db1) ∧
        pairMatchCount db1 a b = 0) ∧
    (pairMatchCount db a b = 0 →
      ∃ db1, resolveAfterUnlike db a b = some (false, db1) ∧
        db1.matchRows = db.matchRows) := by
  constructor
  · intro hc1
    have hpos : 0 < db.matchRows.countP (matchPairPred a b) := by
      unfold pairMatchCount at hc1
      omega
    have hsome : (db.matchRows.find? (matchPairPred a b)).isSome := by
      rw [List.find?_isSome]
      rcases List.countP_pos_iff.1 hpos with ⟨x, hx, hpx⟩
      exact ⟨x, hx, hpx⟩
    obtain ⟨m, hm⟩ := Option.isSome_iff_exists.1 hsome
    refine ⟨⟨db.users, db.likes.filter (fun l => !(l == (a, b))),
      db.matchRows.filter (fun r => !(r.id == m.id)), db.nextMatchId⟩,
      ?_, ?_⟩
    · unfold resolveAfterUnlike
      rw [if_pos hlike]
      show (match db.matchRows.find? (matchPairPred a b) with
        | some m => some (true, (⟨db.users,
            db.likes.filter (fun l => !(l == (a, b))),
            db.matchRows.filter (fun r => !(r.id == m.id)),
            db.nextMatchId⟩ : DB))
        | none => some (false, ⟨db.users,
            db.likes.filter (fun l => !(l == (a, b))),
            db.matchRows, db.nextMatchId⟩)) = _
      rw [hm]
    · show (db.matchRows.filter (fun r => !(r.id == m.id))).countP
        (matchPairPred a b) = 0
      exact countP_filter_id_eq_zero db.matchRows (matchPairPred a b) m hc1 hm
  · intro hc0
    have hfind : db.matchRows.find? (matchPairPred a b) = none :=
      List.find?_eq_none.2 (List.countP_eq_zero.1 hc0)
    refine ⟨⟨db.users, db.likes.filter (fun l => !(l == (a, b))),
      db.matchRows, db.nextMatchId⟩, ?_, rfl⟩
    unfold resolveAfterUnlike
    rw [if_pos hlike]
    show (match db.matchRows.find? (matchPairPred a b) with
      | some m => some (true, (⟨db.users,
          db.likes.filter (fun l => !(l == (a, b))),
          db.matchRows.filter (fun r => !(r.id == m.id)),
          db.nextMatchId⟩ : DB))
      | none => some (false, ⟨db.users,
          db.likes.filter (fun l => !(l == (a, b))),
          db.matchRows, db.nextMatchId⟩)) = _
    rw [hfind]

/-- Like rows for the mutual pair (1, 2) together with its stored match. -/
def dbMatched : DB := ⟨[], [(1, 2), (2, 1)], [⟨0, 1, 2⟩], 1⟩

/-- Witness for C2: the unlike-cleanup theorem applied to the concrete
matched database `dbMatched` (match present) and to `dbLikes` (no
match). -/
theorem unlike_deletes_match_witness :
    (∃ db1, resolveAfterUnlike dbMatched 1 2 = some (true, db1) ∧
      pairMatchCount db1 1 2 = 0) ∧
    (∃ db1, resolveAfterUnlike dbLikes 1 2 = some (false, db1) ∧
      db1.matchRows = dbLikes.matchRows) :=
  ⟨(unlike_deletes_match dbMatched 1 2 (by decide)).1 (by decide),
    (unlike_deletes_match dbLikes 1 2 (by decide)).2 (by decide)⟩
